import Mathlib

/-!
Shallow embedding of the music-player queue controller from
`src/frontend/src/store/index.js` (the `useMusicPlayerStore` actions) and of
the playlist `reorderTracks` method from the Mongoose playlist schema.

JavaScript peculiarities that matter here are modelled explicitly:
  * array indexing out of range yields `undefined`; `x || null` collapses a
    falsy `undefined` to `null`.  Track-valued slots are therefore a
    three-valued type `JVal` (a track, `null`, or `undefined`).
  * `currentIndex` is a JS number that one code path can set to `undefined`
    (indexing an empty array), so it is modelled as `Option Int`
    (`none` = `undefined`).
  * `Math.floor(Math.random() * n)` is modelled by an explicit draw
    parameter `pos : Nat`; real executions satisfy `pos < n` when `0 < n`
    and `pos = 0` when `n = 0`.
-/

/-- Tracks are opaque payloads as far as the player store is concerned. -/
structure Track where
  id : Nat
  deriving DecidableEq

/-- A JavaScript track-valued slot: a track object, `null`, or `undefined`. -/
inductive JVal where
  | track (t : Track)
  | null
  | undef
  deriving DecidableEq

/-- The `repeat` field of the store: `'off'`, `'one'` or `'all'`. -/
inductive RepeatMode where
  | off
  | one
  | all
  deriving DecidableEq

/-- The fields of `useMusicPlayerStore` that the queue actions read or write.
`currentIndex` is `Option Int` because JS can store `undefined` in it;
`currentPlaylist` is kept opaque. -/
structure PlayerState where
  currentTrack : JVal
  currentPlaylist : Option Nat
  queue : List Track
  currentIndex : Option Int
  isPlaying : Bool
  volume : Rat
  isMuted : Bool
  currentTime : Rat
  duration : Rat
  isLoading : Bool
  shuffle : Bool
  repeatMode : RepeatMode
  deriving DecidableEq

/-- JS array read `l[i]`: a track when `i` is a number in range, otherwise
`undefined` (also when the index itself is `undefined`). -/
def arrGet (l : List Track) (i : Option Int) : JVal :=
  match i with
  | none => JVal.undef
  | some i =>
    if h : 0 ≤ i ∧ i.toNat < l.length then JVal.track (l.get ⟨i.toNat, h.2⟩)
    else JVal.undef

/-- JS `v || null` on a track-valued slot: `undefined` collapses to `null`. -/
def orNull (v : JVal) : JVal :=
  match v with
  | JVal.undef => JVal.null
  | JVal.null => JVal.null
  | JVal.track t => JVal.track t

/-- Helper for `queue.filter((_, i) => i !== index)`: keep the elements whose
position (starting at `i`) differs from `index`. -/
def filterIdxAux (index : Int) : Nat → List α → List α
  | _, [] => []
  | i, a :: l =>
    if (i : Int) ≠ index then a :: filterIdxAux index (i + 1) l
    else filterIdxAux index (i + 1) l

/-- JS `l.filter((_, i) => i !== index)`. -/
def jsFilterIdx (l : List α) (index : Int) : List α :=
  filterIdxAux index 0 l

/-- `setCurrentTrack(track, playlist = null, index = 0)`. -/
def setCurrentTrack (track : Track) (playlist : Option Nat) (index : Int)
    (s : PlayerState) : PlayerState :=
  { s with
    currentTrack := JVal.track track
    currentPlaylist := playlist
    currentIndex := some index
    isLoading := true }

/-- `setQueue(tracks, startIndex = 0)`: no bounds validation on `startIndex`;
`currentTrack` is `tracks[startIndex] || null`. -/
def setQueue (tracks : List Track) (startIndex : Int) (s : PlayerState) :
    PlayerState :=
  { s with
    queue := tracks
    currentIndex := some startIndex
    currentTrack := orNull (arrGet tracks (some startIndex)) }

/-- `nextTrack()`.  `pos` is the value of
`Math.floor(Math.random() * availableIndices.length)`; the inner `Option`
of `nextIndex?` distinguishes the early `return` (outer `none`) from a
computed index that may itself be `undefined` (inner `none`). -/
def nextTrack (pos : Nat) (s : PlayerState) : PlayerState :=
  if s.queue.length = 0 then s
  else
    let nextIndex? : Option (Option Int) :=
      if s.shuffle then
        let availableIndices :=
          (List.range s.queue.length).filter
            (fun (i : Nat) => some (i : Int) ≠ s.currentIndex)
        some ((availableIndices[pos]?).map (fun i => (i : Int)))
      else if s.repeatMode = RepeatMode.one then
        some s.currentIndex
      else if s.repeatMode = RepeatMode.all ∧
          s.currentIndex = some ((s.queue.length : Int) - 1) then
        some (some 0)
      else
        match s.currentIndex with
        | some c =>
          if c < (s.queue.length : Int) - 1 then some (some (c + 1)) else none
        | none => none
    match nextIndex? with
    | none => s
    | some nextIndex =>
      { s with
        currentIndex := nextIndex
        currentTrack := arrGet s.queue nextIndex
        currentTime := 0
        isLoading := true }

/-- `previousTrack()`; it never reads `shuffle`. -/
def previousTrack (s : PlayerState) : PlayerState :=
  if s.queue.length = 0 then s
  else
    let prevIndex? : Option Int :=
      if s.repeatMode = RepeatMode.all ∧ s.currentIndex = some 0 then
        some ((s.queue.length : Int) - 1)
      else
        match s.currentIndex with
        | some c => if 0 < c then some (c - 1) else none
        | none => none
    match prevIndex? with
    | none => s
    | some p =>
      { s with
        currentIndex := some p
        currentTrack := arrGet s.queue (some p)
        currentTime := 0
        isLoading := true }

/-- `seekToTrack(index)`: guarded by `0 <= index < queue.length`. -/
def seekToTrack (index : Int) (s : PlayerState) : PlayerState :=
  if 0 ≤ index ∧ index < (s.queue.length : Int) then
    { s with
      currentIndex := some index
      currentTrack := arrGet s.queue (some index)
      currentTime := 0
      isLoading := true }
  else s

/-- `addToQueue(track)`: appends, touching nothing else. -/
def addToQueue (track : Track) (s : PlayerState) : PlayerState :=
  { s with queue := s.queue ++ [track] }

/-- `removeFromQueue(index)`.  Mirrors the JS branch structure, including the
comparisons `index < currentIndex` and `index === currentIndex`, which are
both false when `currentIndex` is `undefined`. -/
def removeFromQueue (index : Int) (s : PlayerState) : PlayerState :=
  let newQueue := jsFilterIdx s.queue index
  match s.currentIndex with
  | none =>
    { s with
      queue := newQueue
      currentIndex := none
      currentTrack := orNull (arrGet newQueue none) }
  | some c =>
    if index < c then
      { s with
        queue := newQueue
        currentIndex := some (c - 1)
        currentTrack := orNull (arrGet newQueue (some (c - 1))) }
    else if index = c then
      if newQueue.length = 0 then
        { s with
          queue := []
          currentTrack := JVal.null
          currentIndex := some 0
          isPlaying := false }
      else if (newQueue.length : Int) ≤ c then
        { s with
          queue := newQueue
          currentIndex := some 0
          currentTrack := orNull (arrGet newQueue (some 0)) }
      else
        { s with
          queue := newQueue
          currentIndex := some c
          currentTrack := orNull (arrGet newQueue (some c)) }
    else
      { s with
        queue := newQueue
        currentIndex := some c
        currentTrack := orNull (arrGet newQueue (some c)) }

/-- `clearQueue()`. -/
def clearQueue (s : PlayerState) : PlayerState :=
  { s with
    queue := []
    currentTrack := JVal.null
    currentIndex := some 0
    isPlaying := false
    currentTime := 0 }

/-- `reset()`. -/
def reset (s : PlayerState) : PlayerState :=
  { s with
    currentTrack := JVal.null
    currentPlaylist := none
    queue := []
    currentIndex := some 0
    isPlaying := false
    currentTime := 0
    duration := 0
    isLoading := false }

/-- The cursor is a number within `[0, queue.length)`. -/
def cursorOK (s : PlayerState) : Prop :=
  match s.currentIndex with
  | some c => 0 ≤ c ∧ c < (s.queue.length : Int)
  | none => False

/-- The spec's invariant: whenever the queue is non-empty the cursor is in
bounds. -/
def QueueInv (s : PlayerState) : Prop :=
  s.queue ≠ [] → cursorOK s

instance (s : PlayerState) : Decidable (cursorOK s) := by
  unfold cursorOK
  cases s.currentIndex <;> infer_instance

instance (s : PlayerState) : Decidable (QueueInv s) := by
  unfold QueueInv
  infer_instance

/-- A playlist track subdocument; only `trackId` is read by `reorderTracks`,
the payload stands for the remaining fields. -/
structure PTrack where
  trackId : String
  title : String
  deriving DecidableEq

/-- `playlistSchema.methods.reorderTracks(trackIds)`: for each supplied id in
order, `find` the first present track with that id and push it if found. -/
def reorderTracks (tracks : List PTrack) (trackIds : List String) :
    List PTrack :=
  trackIds.filterMap (fun id => tracks.find? (fun t => t.trackId == id))

/-! ### Helper lemmas -/

theorem filterIdxAux_out (l : List α) (index : Int) :
    ∀ i : Nat, (index < i ∨ (i : Int) + l.length ≤ index) →
      filterIdxAux index i l = l := by
  induction l with
  | nil => intro i _; rfl
  | cons a l ih =>
    intro i h
    have hne : (i : Int) ≠ index := by
      simp only [List.length_cons] at h
      push_cast at h ⊢
      omega
    have hrec : filterIdxAux index (i + 1) l = l := by
      apply ih
      simp only [List.length_cons] at h
      push_cast at h ⊢
      omega
    simp [filterIdxAux, hne, hrec]

theorem filterIdxAux_in (l : List α) (index : Int) :
    ∀ i : Nat, (i : Int) ≤ index → index < (i : Int) + l.length →
      filterIdxAux index i l = l.eraseIdx (index - i).toNat := by
  induction l with
  | nil =>
    intro i h1 h2
    simp only [List.length_nil] at h2
    omega
  | cons a l ih =>
    intro i h1 h2
    by_cases he : (i : Int) = index
    · have h0 : (index - i).toNat = 0 := by omega
      have hrec : filterIdxAux index (i + 1) l = l := by
        apply filterIdxAux_out
        push_cast
        omega
      simp [filterIdxAux, he, h0, hrec, List.eraseIdx]
    · have h1' : ((i : Int) + 1) ≤ index := by omega
      have h2' : index < ((i : Int) + 1) + l.length := by
        simp only [List.length_cons] at h2
        push_cast at h2 ⊢
        omega
      have hrec := ih (i + 1) (by push_cast; omega)
        (by push_cast; omega)
      have hk : (index - i).toNat = (index - (i + 1)).toNat + 1 := by omega
      simp [filterIdxAux, he, hrec, hk, List.eraseIdx]

theorem jsFilterIdx_out (l : List α) (index : Int)
    (h : index < 0 ∨ (l.length : Int) ≤ index) : jsFilterIdx l index = l := by
  unfold jsFilterIdx
  apply filterIdxAux_out
  push_cast
  omega

theorem jsFilterIdx_in (l : List α) (index : Int) (h0 : 0 ≤ index)
    (h1 : index < (l.length : Int)) :
    jsFilterIdx l index = l.eraseIdx index.toNat := by
  unfold jsFilterIdx
  have := filterIdxAux_in l index 0 (by push_cast; omega) (by push_cast; omega)
  simpa using this

theorem jsFilterIdx_length_in (l : List α) (index : Int) (h0 : 0 ≤ index)
    (h1 : index < (l.length : Int)) :
    (jsFilterIdx l index).length = l.length - 1 := by
  rw [jsFilterIdx_in l index h0 h1, List.length_eraseIdx]
  have : index.toNat < l.length := by omega
  simp [this]

theorem availRange_length (n : Nat) (c : Int) (h0 : 0 ≤ c) (h1 : c < (n : Int)) :
    ((List.range n).filter (fun (i : Nat) => some (i : Int) ≠ some c)).length = n - 1 := by
  have hconv : (List.range n).filter (fun (i : Nat) => some (i : Int) ≠ some c) =
      (List.range n).filter (fun (i : Nat) => decide (¬ i = c.toNat)) := by
    apply List.filter_congr
    intro a _
    have : (some (a : Int) ≠ some c) ↔ ¬ a = c.toNat := by
      constructor
      · intro h he; apply h; subst he; congr 1; omega
      · intro h he; apply h; simp only [Option.some.injEq] at he; omega
    simp [this]
  rw [hconv]
  have hc : c.toNat < n := by omega
  clear hconv h0 h1
  induction n with
  | zero => omega
  | succ m ih =>
    rw [List.range_succ, List.filter_append, List.length_append]
    rcases Nat.lt_or_ge c.toNat m with hk | hk
    · rw [ih hk]
      have hm : ¬ m = c.toNat := by omega
      simp only [List.filter_cons, List.filter_nil]
      simp [hm]
      omega
    · have hkm : c.toNat = m := by omega
      have hself : (List.range m).filter (fun (i : Nat) => decide (¬ i = c.toNat)) =
          List.range m := by
        apply List.filter_eq_self.mpr
        intro a ha
        simp only [List.mem_range] at ha
        simp
        omega
      rw [hself]
      simp only [List.filter_cons, List.filter_nil]
      simp [hkm]

theorem availRange_mem (n : Nat) (co : Option Int) (j : Nat)
    (h : j ∈ (List.range n).filter (fun (i : Nat) => some (i : Int) ≠ co)) :
    j < n ∧ some (j : Int) ≠ co := by
  rw [List.mem_filter] at h
  refine ⟨List.mem_range.mp h.1, ?_⟩
  have := h.2
  simpa using this

/-! ### Concrete fixtures -/

def trackA : Track := ⟨0⟩

def trackB : Track := ⟨1⟩

def trackC : Track := ⟨2⟩

/-- The store's initial field values (defaults from the source). -/
def baseState : PlayerState :=
  { currentTrack := JVal.null
    currentPlaylist := none
    queue := []
    currentIndex := some 0
    isPlaying := false
    volume := 4 / 5
    isMuted := false
    currentTime := 0
    duration := 0
    isLoading := false
    shuffle := false
    repeatMode := RepeatMode.off }

/-! ### Claims -/

/-- Claim C10: neither `clearQueue` nor `reset` modifies `shuffle`,
`repeatMode`, `volume` or `isMuted`, even though both clear the queue, the
current track, playback and elapsed time. -/
theorem c10_clear_reset_frame (s : PlayerState) :
    (clearQueue s).shuffle = s.shuffle ∧
    (clearQueue s).repeatMode = s.repeatMode ∧
    (clearQueue s).volume = s.volume ∧
    (clearQueue s).isMuted = s.isMuted ∧
    (reset s).shuffle = s.shuffle ∧
    (reset s).repeatMode = s.repeatMode ∧
    (reset s).volume = s.volume ∧
    (reset s).isMuted = s.isMuted ∧
    (clearQueue s).queue = [] ∧
    (clearQueue s).currentTrack = JVal.null ∧
    (clearQueue s).isPlaying = false ∧
    (clearQueue s).currentTime = 0 ∧
    (reset s).queue = [] ∧
    (reset s).currentTrack = JVal.null ∧
    (reset s).isPlaying = false ∧
    (reset s).currentTime = 0 := by
  refine ⟨rfl, rfl, rfl, rfl, rfl, rfl, rfl, rfl, rfl, rfl, rfl, rfl, rfl,
    rfl, rfl, rfl⟩

/-- Claim C2: `setQueue(tracks, startIndex)` installs `tracks`, sets the
cursor to `startIndex` with no bounds validation, and sets the current track
to `tracks[startIndex]` when in range and to `null` when out of range; on an
empty list the current track is `null` for every `startIndex`. -/
theorem c2_setQueue_spec (s : PlayerState) (tracks : List Track) (i : Int) :
    (setQueue tracks i s).queue = tracks ∧
    (setQueue tracks i s).currentIndex = some i ∧
    (∀ h : 0 ≤ i ∧ i.toNat < tracks.length,
      (setQueue tracks i s).currentTrack =
        JVal.track (tracks.get ⟨i.toNat, h.2⟩)) ∧
    ((i < 0 ∨ (tracks.length : Int) ≤ i) →
      (setQueue tracks i s).currentTrack = JVal.null) ∧
    (tracks = [] → (setQueue tracks i s).currentTrack = JVal.null) := by
  refine ⟨rfl, rfl, ?_, ?_, ?_⟩
  · intro h
    simp [setQueue, arrGet, orNull, h]
  · intro h
    have hno : ¬ (0 ≤ i ∧ i.toNat < tracks.length) := by omega
    simp [setQueue, arrGet, orNull, hno]
  · intro h
    subst h
    have hno : ¬ (0 ≤ i ∧ i.toNat < ([] : List Track).length) := by
      simp
    simp [setQueue, arrGet, orNull, hno]

/-- Witness for C2 at a singleton queue and the out-of-range index 5. -/
theorem c2_witness :
    (setQueue [trackA] 5 baseState).currentIndex = some 5 ∧
    (setQueue [trackA] 5 baseState).currentTrack = JVal.null :=
  ⟨(c2_setQueue_spec baseState [trackA] 5).2.1,
   (c2_setQueue_spec baseState [trackA] 5).2.2.2.1 (by decide)⟩

def s3 : PlayerState :=
  { baseState with
    queue := [trackA]
    currentIndex := some 0
    currentTrack := JVal.track trackA
    shuffle := true
    isPlaying := true
    currentTime := 7 }

/-- Counterexample to C3 as stated: with `shuffle` on and a singleton queue,
`nextTrack` is not a no-op — the state changes. -/
theorem c3_cex :
    s3.shuffle = true ∧ s3.queue.length = 1 ∧ s3.currentIndex = some 0 ∧
    nextTrack 0 s3 ≠ s3 ∧ (nextTrack 0 s3).currentIndex = none := by
  decide

/-- C3 amended: with `shuffle` on and a singleton queue, the candidate index
set is empty, and `nextTrack` indexes the empty list: it sets `currentIndex`
and `currentTrack` to `undefined`, resets the elapsed time to 0 and marks
loading, leaving the other fields unchanged. -/
theorem c3_amended (s : PlayerState) (pos : Nat) (hsh : s.shuffle = true)
    (hq : s.queue.length = 1) (hc : s.currentIndex = some 0) :
    nextTrack pos s =
      { s with
        currentIndex := none
        currentTrack := JVal.undef
        currentTime := 0
        isLoading := true } := by
  have hne : ¬ s.queue.length = 0 := by omega
  have hAvail : (List.range s.queue.length).filter
      (fun (i : Nat) => some (i : Int) ≠ s.currentIndex) = [] := by
    rw [hq, hc]
    decide
  unfold nextTrack
  simp only [ne_eq, decide_not] at hAvail
  simp [hne, hsh, hAvail, arrGet]

/-- Witness for the amended C3 at the concrete singleton state `s3`. -/
theorem c3_witness :
    nextTrack 0 s3 =
      { s3 with
        currentIndex := none
        currentTrack := JVal.undef
        currentTime := 0
        isLoading := true } :=
  c3_amended s3 0 rfl (by decide) rfl

def s4 : PlayerState :=
  { baseState with
    queue := [trackA, trackB, trackC]
    currentIndex := some 2
    currentTrack := JVal.track trackC
    repeatMode := RepeatMode.all
    shuffle := true }

/-- Counterexample to C4 as stated: with `shuffle` also on, the shuffle
branch wins and a legitimate draw (`pos = 1`, within the two candidate
indices) moves the cursor to 1, not 0. -/
theorem c4_cex :
    s4.repeatMode = RepeatMode.all ∧ s4.queue ≠ [] ∧
    s4.currentIndex = some ((s4.queue.length : Int) - 1) ∧
    (nextTrack 1 s4).currentIndex = some 1 ∧
    (nextTrack 1 s4).currentIndex ≠ some 0 := by
  decide

/-- C4 amended: with `shuffle` off, `repeat = 'all'` and the cursor on the
last index of a non-empty queue, `nextTrack` wraps the cursor to 0, makes the
first queue element current, resets the elapsed time to 0 and marks
loading. -/
theorem c4_advance_wraps (s : PlayerState) (pos : Nat)
    (hsh : s.shuffle = false) (hr : s.repeatMode = RepeatMode.all)
    (hq : s.queue ≠ [])
    (hc : s.currentIndex = some ((s.queue.length : Int) - 1)) :
    (nextTrack pos s).currentIndex = some 0 ∧
    (∃ h : 0 < s.queue.length,
      (nextTrack pos s).currentTrack = JVal.track (s.queue.get ⟨0, h⟩)) ∧
    (nextTrack pos s).currentTime = 0 ∧
    (nextTrack pos s).isLoading = true := by
  have hlen : 0 < s.queue.length := List.length_pos.mpr hq
  have hne : ¬ s.queue.length = 0 := by omega
  have hro : ¬ s.repeatMode = RepeatMode.one := by rw [hr]; decide
  have hcond : s.repeatMode = RepeatMode.all ∧
      s.currentIndex = some ((s.queue.length : Int) - 1) := ⟨hr, hc⟩
  have hget : (0 : Int).toNat < s.queue.length := by omega
  unfold nextTrack
  simp [hne, hsh, hro, hcond, arrGet, hlen]

/-- Witness for the amended C4: queue `[A, B, C]`, cursor 2, repeat all,
shuffle off. -/
theorem c4_witness :
    (nextTrack 0 { s4 with shuffle := false }).currentIndex = some 0 ∧
    (nextTrack 0 { s4 with shuffle := false }).currentTime = 0 :=
  ⟨(c4_advance_wraps { s4 with shuffle := false } 0 rfl rfl (by decide)
      (by decide)).1,
   (c4_advance_wraps { s4 with shuffle := false } 0 rfl rfl (by decide)
      (by decide)).2.2.1⟩

theorem previousTrack_shuffle_frame (s : PlayerState) (b : Bool) :
    previousTrack { s with shuffle := b } =
      { previousTrack s with shuffle := b } := by
  unfold previousTrack
  rcases s with ⟨ct, cp, q, ci, ip, v, im, tm, d, il, sh, rm⟩
  dsimp only
  split
  · rfl
  · split
    · rfl
    · rfl

/-- Claim C6: on a non-empty queue, `previousTrack` wraps the cursor from 0
to the last index when `repeat = 'all'`, decrements it when it is positive,
and otherwise is a no-op; and `shuffle` has no effect on it. -/
theorem c6_previousTrack (s : PlayerState) (hq : s.queue ≠ []) :
    (s.repeatMode = RepeatMode.all → s.currentIndex = some 0 →
      (previousTrack s).currentIndex = some ((s.queue.length : Int) - 1)) ∧
    (∀ c : Int, s.currentIndex = some c → 0 < c →
      (previousTrack s).currentIndex = some (c - 1)) ∧
    (¬ (s.repeatMode = RepeatMode.all ∧ s.currentIndex = some 0) →
      (∀ c : Int, s.currentIndex = some c → c ≤ 0 → previousTrack s = s) ∧
      (s.currentIndex = none → previousTrack s = s)) ∧
    (∀ b : Bool, previousTrack { s with shuffle := b } =
      { previousTrack s with shuffle := b }) := by
  have hlen : 0 < s.queue.length := List.length_pos.mpr hq
  have hne : ¬ s.queue.length = 0 := by omega
  refine ⟨?_, ?_, ?_, fun b => previousTrack_shuffle_frame s b⟩
  · intro hr hc
    have hcond : s.repeatMode = RepeatMode.all ∧ s.currentIndex = some 0 :=
      ⟨hr, hc⟩
    unfold previousTrack
    simp [hne, hcond]
  · intro c hc h0
    by_cases hcond : s.repeatMode = RepeatMode.all ∧ s.currentIndex = some 0
    · rw [hc] at hcond
      have : c = 0 := by
        have := hcond.2
        simp only [Option.some.injEq] at this
        omega
      omega
    · have hcf : ¬ (s.repeatMode = RepeatMode.all ∧ c = 0) := by
        intro h
        omega
      unfold previousTrack
      simp [hne, hc, hcf, h0]
  · intro hcond
    constructor
    · intro c hc h0
      have hnot : ¬ 0 < c := by omega
      have hcf : ¬ (s.repeatMode = RepeatMode.all ∧ c = 0) := by
        intro h
        exact hcond ⟨h.1, by rw [hc, h.2]⟩
      unfold previousTrack
      simp [hne, hc, hcf, hnot]
    · intro hc
      unfold previousTrack
      simp [hne, hcond, hc]

def s6 : PlayerState :=
  { baseState with
    queue := [trackA, trackB, trackC]
    currentIndex := some 0
    currentTrack := JVal.track trackA
    repeatMode := RepeatMode.all }

/-- Witness for C6: wrap from cursor 0 to the last index on `[A, B, C]` with
`repeat = 'all'`. -/
theorem c6_witness : (previousTrack s6).currentIndex = some 2 := by
  have h := (c6_previousTrack s6 (by decide)).1 rfl rfl
  simpa using h

def ptAX : PTrack := ⟨"a", "x"⟩

def ptAY : PTrack := ⟨"a", "y"⟩

/-- Counterexample to C9 as stated: with two present tracks sharing the id
`"a"`, `reorderTracks(["a"])` keeps only the first, so a track whose id does
appear in the supplied order is nevertheless dropped. -/
theorem c9_cex :
    ptAY.trackId ∈ ["a"] ∧ ptAY ∈ [ptAX, ptAY] ∧
    ptAY ∉ reorderTracks [ptAX, ptAY] ["a"] := by
  decide

/-- C9 amended: provided the present tracks have pairwise-distinct ids (as
`addTrack` enforces), `reorderTracks` keeps exactly the present tracks whose
id appears in the supplied order, arranged in that order: membership is
characterised, and the id sequence of the result is exactly the supplied
order restricted to ids that match a present track. -/
theorem c9_reorder_spec (tracks : List PTrack) (ids : List String)
    (hnd : (tracks.map PTrack.trackId).Nodup) :
    (∀ t, t ∈ reorderTracks tracks ids ↔ t ∈ tracks ∧ t.trackId ∈ ids) ∧
    (reorderTracks tracks ids).map PTrack.trackId =
      ids.filter (fun id => tracks.any (fun t => t.trackId == id)) := by
  constructor
  · intro t
    constructor
    · intro ht
      rw [reorderTracks, List.mem_filterMap] at ht
      obtain ⟨id, hid, hfind⟩ := ht
      have hmem := List.mem_of_find?_eq_some hfind
      have hpred := List.find?_some hfind
      have heq : t.trackId = id := by simpa using hpred
      exact ⟨hmem, heq ▸ hid⟩
    · rintro ⟨hmem, hid⟩
      rw [reorderTracks, List.mem_filterMap]
      refine ⟨t.trackId, hid, ?_⟩
      rcases hfind : tracks.find? (fun u => u.trackId == t.trackId) with _ | u
      · rw [List.find?_eq_none] at hfind
        exact absurd (by simp) (hfind t hmem)
      · have humem := List.mem_of_find?_eq_some hfind
        have hueq : u.trackId = t.trackId := by
          simpa using List.find?_some hfind
        have hut : u = t := List.inj_on_of_nodup_map hnd humem hmem hueq
        exact hut ▸ hfind
  · induction ids with
    | nil => rfl
    | cons id rest ih =>
      rw [reorderTracks] at ih ⊢
      rcases hfind : tracks.find? (fun u => u.trackId == id) with _ | u
      · have hany : tracks.any (fun t => t.trackId == id) = false := by
          rw [List.any_eq_false]
          intro t ht
          rw [List.find?_eq_none] at hfind
          exact hfind t ht
        rw [List.filterMap_cons, hfind, List.filter_cons]
        simp only [hany, Bool.false_eq_true, if_false]
        exact ih
      · have hueq : u.trackId = id := by
          simpa using List.find?_some hfind
        have hany : tracks.any (fun t => t.trackId == id) = true := by
          rw [List.any_eq_true]
          exact ⟨u, List.mem_of_find?_eq_some hfind, by simp [hueq]⟩
        rw [List.filterMap_cons, hfind, List.filter_cons]
        simp only [hany, if_true, List.map_cons, hueq]
        rw [ih]

/-- Witness for the amended C9 on a concrete playlist: ids reversed, one
unknown id, one present track not listed. -/
theorem c9_witness :
    ptAX ∈ reorderTracks [ptAX, ⟨"b", "y"⟩] ["zzz", "b", "a"] ∧
    (reorderTracks [ptAX, ⟨"b", "y"⟩] ["zzz", "b", "a"]).map PTrack.trackId =
      ["b", "a"] := by
  have h := c9_reorder_spec [ptAX, ⟨"b", "y"⟩] ["zzz", "b", "a"] (by decide)
  constructor
  · exact (h.1 ptAX).mpr (by decide)
  · rw [h.2]
    decide

/-- Claim C5: cursor adjustment of `removeFromQueue(index)` for an in-bounds
cursor: decrement when removing before the cursor; on removing the current
track, clear everything when the queue empties, reset the cursor to 0 when
it pointed at the last element, and otherwise keep its numeric value, which
then denotes the track that followed; leave the cursor alone when removing
after it. -/
theorem c5_removeFromQueue_cursor (s : PlayerState) (i c : Int)
    (hc : s.currentIndex = some c) (h0 : 0 ≤ c)
    (h1 : c < (s.queue.length : Int)) :
    (i < c → (removeFromQueue i s).currentIndex = some (c - 1)) ∧
    (i = c → s.queue.length = 1 →
      (removeFromQueue i s).queue = [] ∧
      (removeFromQueue i s).currentTrack = JVal.null ∧
      (removeFromQueue i s).isPlaying = false ∧
      (removeFromQueue i s).currentIndex = some 0) ∧
    (i = c → 2 ≤ s.queue.length → c = (s.queue.length : Int) - 1 →
      (removeFromQueue i s).currentIndex = some 0) ∧
    (i = c → c < (s.queue.length : Int) - 1 →
      (removeFromQueue i s).currentIndex = some c ∧
      ∃ h : c.toNat + 1 < s.queue.length,
        (removeFromQueue i s).currentTrack =
          JVal.track (s.queue.get ⟨c.toNat + 1, h⟩)) ∧
    (c < i → (removeFromQueue i s).currentIndex = some c) := by
  refine ⟨?_, ?_, ?_, ?_, ?_⟩
  · intro hi
    simp [removeFromQueue, hc, hi]
  · intro hieq hlen1
    subst hieq
    have hnlt : ¬ i < i := by omega
    have hjs : jsFilterIdx s.queue i = s.queue.eraseIdx i.toNat :=
      jsFilterIdx_in s.queue i h0 h1
    have hlen0 : (jsFilterIdx s.queue i).length = 0 := by
      rw [jsFilterIdx_length_in s.queue i h0 h1, hlen1]
    have hnil : jsFilterIdx s.queue i = [] := List.length_eq_zero.mp hlen0
    simp [removeFromQueue, hc, hnlt, hnil]
  · intro hieq hlen2 hlast
    subst hieq
    have hnlt : ¬ i < i := by omega
    have hlen : (jsFilterIdx s.queue i).length = s.queue.length - 1 :=
      jsFilterIdx_length_in s.queue i h0 h1
    have hne : ¬ (jsFilterIdx s.queue i).length = 0 := by omega
    have hge : ((jsFilterIdx s.queue i).length : Int) ≤ i := by
      rw [hlen]
      omega
    simp [removeFromQueue, hc, hnlt, hne, hge]
  · intro hieq hmid
    subst hieq
    have hnlt : ¬ i < i := by omega
    have hlen : (jsFilterIdx s.queue i).length = s.queue.length - 1 :=
      jsFilterIdx_length_in s.queue i h0 h1
    have hne : ¬ (jsFilterIdx s.queue i).length = 0 := by omega
    have hnge : ¬ ((jsFilterIdx s.queue i).length : Int) ≤ i := by
      rw [hlen]
      omega
    have hjs : jsFilterIdx s.queue i = s.queue.eraseIdx i.toNat :=
      jsFilterIdx_in s.queue i h0 h1
    have hb : i.toNat + 1 < s.queue.length := by omega
    refine ⟨?_, hb, ?_⟩
    · simp [removeFromQueue, hc, hnlt, hne, hnge]
    · have hbound : 0 ≤ i ∧ i.toNat < (jsFilterIdx s.queue i).length := by
        omega
      have hnotlt : ¬ i.toNat < i.toNat := by omega
      simp only [removeFromQueue, hc, hnlt, if_false, if_pos rfl, hne,
        hnge, arrGet, hbound, dif_pos, orNull]
      simp only [List.get_eq_getElem, hjs, List.getElem_eraseIdx, hnotlt,
        dif_neg]
      simp
  · intro hi
    have hnlt : ¬ i < c := by omega
    have hneq : ¬ i = c := by omega
    simp [removeFromQueue, hc, hnlt, hneq]

def s5 : PlayerState :=
  { baseState with
    queue := [trackA, trackB]
    currentIndex := some 1
    currentTrack := JVal.track trackB }

/-- Witness for C5: `removeFromQueue(0)` on queue `[A, B]` with cursor 1
decrements the cursor to 0. -/
theorem c5_witness : (removeFromQueue 0 s5).currentIndex = some 0 := by
  have h := (c5_removeFromQueue_cursor s5 0 1 rfl (by decide) (by decide)).1
    (by decide)
  simpa using h

def s7 : PlayerState :=
  { baseState with
    queue := [trackA, trackB]
    currentIndex := some 1
    currentTrack := JVal.track trackB
    isPlaying := true }

/-- Counterexample to C7 as stated: `-1` is outside `[0, queue.length)`, yet
`removeFromQueue(-1)` is not a no-op — it decrements the cursor and changes
the current track. -/
theorem c7_cex :
    ((-1 : Int) < 0 ∨ (s7.queue.length : Int) ≤ (-1 : Int)) ∧
    removeFromQueue (-1) s7 ≠ s7 ∧
    (removeFromQueue (-1) s7).currentIndex = some 0 ∧
    (removeFromQueue (-1) s7).currentTrack = JVal.track trackA := by
  decide

/-- C7 amended: all the queue operations are modelled as total functions;
out-of-range `seekToTrack` and `nextTrack`/`previousTrack` on an empty queue
are no-ops; `removeFromQueue` with `index >= queue.length` leaves the queue
and cursor unchanged and re-derives the current track as
`queue[cursor] || null`; but with a negative `index` it decrements an
in-bounds cursor by 1 (and re-derives the current track), so it is not a
no-op there. -/
theorem c7_invalid_inputs (s : PlayerState) :
    (∀ i : Int, (i < 0 ∨ (s.queue.length : Int) ≤ i) → seekToTrack i s = s) ∧
    (s.queue = [] → (∀ pos : Nat, nextTrack pos s = s) ∧
      previousTrack s = s) ∧
    (∀ c : Int, s.currentIndex = some c → 0 ≤ c →
      c < (s.queue.length : Int) → ∀ i : Int, (s.queue.length : Int) ≤ i →
      (removeFromQueue i s).queue = s.queue ∧
      (removeFromQueue i s).currentIndex = some c ∧
      ∃ h : c.toNat < s.queue.length,
        (removeFromQueue i s).currentTrack =
          JVal.track (s.queue.get ⟨c.toNat, h⟩)) ∧
    (∀ c : Int, s.currentIndex = some c → 0 ≤ c → ∀ i : Int, i < 0 →
      (removeFromQueue i s).queue = s.queue ∧
      (removeFromQueue i s).currentIndex = some (c - 1)) := by
  refine ⟨?_, ?_, ?_, ?_⟩
  · intro i hi
    have hno : ¬ (0 ≤ i ∧ i < (s.queue.length : Int)) := by omega
    simp [seekToTrack, hno]
  · intro hq
    have hz : s.queue.length = 0 := by rw [hq]; rfl
    exact ⟨fun pos => by simp [nextTrack, hz], by simp [previousTrack, hz]⟩
  · intro c hc h0 h1 i hi
    have hjs : jsFilterIdx s.queue i = s.queue :=
      jsFilterIdx_out s.queue i (Or.inr hi)
    have hnlt : ¬ i < c := by omega
    have hneq : ¬ i = c := by omega
    have hb : c.toNat < s.queue.length := by omega
    refine ⟨?_, ?_, hb, ?_⟩
    · simp [removeFromQueue, hc, hnlt, hneq, hjs]
    · simp [removeFromQueue, hc, hnlt, hneq, hjs]
    · have hbound : 0 ≤ c ∧ c.toNat < s.queue.length := ⟨h0, hb⟩
      simp [removeFromQueue, hc, hnlt, hneq, hjs, arrGet, hbound, orNull]
  · intro c hc h0 i hi
    have hjs : jsFilterIdx s.queue i = s.queue :=
      jsFilterIdx_out s.queue i (Or.inl hi)
    have hlt : i < c := by omega
    exact ⟨by simp [removeFromQueue, hc, hlt, hjs],
      by simp [removeFromQueue, hc, hlt, hjs]⟩

/-- Witness for the amended C7 at concrete states: out-of-range seek and
remove, and empty-queue navigation. -/
theorem c7_witness :
    seekToTrack 5 s7 = s7 ∧ nextTrack 0 baseState = baseState ∧
    previousTrack baseState = baseState ∧
    (removeFromQueue 7 s7).queue = s7.queue ∧
    (removeFromQueue 7 s7).currentIndex = some 1 :=
  ⟨(c7_invalid_inputs s7).1 5 (by decide),
   ((c7_invalid_inputs baseState).2.1 (by decide)).1 0,
   ((c7_invalid_inputs baseState).2.1 (by decide)).2,
   ((c7_invalid_inputs s7).2.2.1 1 rfl (by decide) (by decide) 7
     (by decide)).1,
   ((c7_invalid_inputs s7).2.2.1 1 rfl (by decide) (by decide) 7
     (by decide)).2.1⟩

theorem nextTrack_shuffle_spec (s : PlayerState) (pos : Nat) (c : Int)
    (hsh : s.shuffle = true) (hc : s.currentIndex = some c) (h0 : 0 ≤ c)
    (h1 : c < (s.queue.length : Int)) (hpos : pos + 1 < s.queue.length) :
    ∃ j : Nat, j < s.queue.length ∧ (j : Int) ≠ c ∧
      (nextTrack pos s).queue = s.queue ∧
      (nextTrack pos s).currentIndex = some (j : Int) ∧
      (nextTrack pos s).currentTrack = arrGet s.queue (some (j : Int)) := by
  have hne : ¬ s.queue.length = 0 := by omega
  have hlenA : ((List.range s.queue.length).filter
      (fun (i : Nat) => some (i : Int) ≠ s.currentIndex)).length =
      s.queue.length - 1 := by
    rw [hc]
    exact availRange_length s.queue.length c h0 h1
  have hposA : pos < ((List.range s.queue.length).filter
      (fun (i : Nat) => some (i : Int) ≠ s.currentIndex)).length := by
    omega
  obtain ⟨j, hj⟩ : ∃ j, ((List.range s.queue.length).filter
      (fun (i : Nat) => some (i : Int) ≠ s.currentIndex))[pos]? = some j :=
    ⟨_, List.getElem?_eq_getElem hposA⟩
  have hjmem : j ∈ (List.range s.queue.length).filter
      (fun (i : Nat) => some (i : Int) ≠ s.currentIndex) := by
    have heq : ((List.range s.queue.length).filter
        (fun (i : Nat) => some (i : Int) ≠ s.currentIndex))[pos] = j := by
      have h2 := List.getElem?_eq_getElem hposA
      rw [hj] at h2
      exact (Option.some.inj h2.symm)
    rw [← heq]
    exact List.getElem_mem hposA
  have hjprop := availRange_mem s.queue.length s.currentIndex j hjmem
  refine ⟨j, hjprop.1, ?_, ?_, ?_, ?_⟩
  · intro hje
    exact hjprop.2 (by rw [hc, hje])
  · simp only [ne_eq, decide_not] at hj
    unfold nextTrack
    simp [hne, hsh, hj]
  · simp only [ne_eq, decide_not] at hj
    unfold nextTrack
    simp [hne, hsh, hj]
  · simp only [ne_eq, decide_not] at hj
    unfold nextTrack
    simp [hne, hsh, hj]

/-- Claim C8: with `shuffle` on, a queue of length at least 2 and an
in-bounds cursor, every possible random draw moves the cursor to an
in-bounds index different from the previous one and makes that queue entry
the current track. -/
theorem c8_shuffle_advance (s : PlayerState) (pos : Nat) (c : Int)
    (hsh : s.shuffle = true) (_hlen : 2 ≤ s.queue.length)
    (hc : s.currentIndex = some c) (h0 : 0 ≤ c)
    (h1 : c < (s.queue.length : Int)) (hpos : pos + 1 < s.queue.length) :
    ∃ j : Nat, (nextTrack pos s).currentIndex = some (j : Int) ∧
      j < s.queue.length ∧ (j : Int) ≠ c ∧
      ∃ h : j < s.queue.length,
        (nextTrack pos s).currentTrack = JVal.track (s.queue.get ⟨j, h⟩) := by
  obtain ⟨j, hjlt, hjne, _, hci, hct⟩ :=
    nextTrack_shuffle_spec s pos c hsh hc h0 h1 hpos
  refine ⟨j, hci, hjlt, hjne, hjlt, ?_⟩
  have hbound : 0 ≤ (j : Int) ∧ (j : Int).toNat < s.queue.length := by
    constructor
    · exact Int.ofNat_nonneg j
    · simpa using hjlt
  rw [hct]
  simp [arrGet, hbound, hjlt]

/-- Witness for C8 at the concrete three-track shuffle state `s4`
(cursor 2): the draw `pos = 0` lands on index 0. -/
theorem c8_witness :
    (nextTrack 0 s4).currentIndex = some 0 ∧
    (nextTrack 0 s4).currentTrack = JVal.track trackA := by
  obtain ⟨j, hci, hjlt, hjne, h, hct⟩ :=
    c8_shuffle_advance s4 0 2 rfl (by decide) rfl (by decide) (by decide)
      (by decide)
  have hj0 : j = 0 := by
    have : (nextTrack 0 s4).currentIndex = some 0 := by decide
    rw [hci] at this
    simpa using this
  subst hj0
  exact ⟨hci, by simpa using hct⟩

/-- Counterexample to C1 as stated: from the initial state (which satisfies
the bound), `setQueue([A], 5)` yields a non-empty queue with cursor 5. -/
theorem c1_cex :
    QueueInv baseState ∧ ¬ QueueInv (setQueue [trackA] 5 baseState) := by
  decide

theorem queueInv_setQueue (s : PlayerState) (tracks : List Track) (i : Int)
    (h : (0 ≤ i ∧ i < (tracks.length : Int)) ∨ tracks = []) :
    QueueInv (setQueue tracks i s) := by
  intro hne
  rcases h with h | h
  · show cursorOK _
    unfold cursorOK
    simpa [setQueue] using h
  · subst h
    exact absurd rfl hne

theorem queueInv_setCurrentTrack (s : PlayerState) (t : Track)
    (p : Option Nat) (i : Int)
    (h : (0 ≤ i ∧ i < (s.queue.length : Int)) ∨ s.queue = []) :
    QueueInv (setCurrentTrack t p i s) := by
  intro hne
  rcases h with h | h
  · show cursorOK _
    unfold cursorOK
    simpa [setCurrentTrack] using h
  · exact absurd h hne

theorem queueInv_seekToTrack (s : PlayerState) (i : Int)
    (hs : QueueInv s) : QueueInv (seekToTrack i s) := by
  by_cases h : 0 ≤ i ∧ i < (s.queue.length : Int)
  · intro _
    show cursorOK _
    unfold cursorOK
    simp [seekToTrack, h]
  · have : seekToTrack i s = s := by simp [seekToTrack, h]
    rw [this]
    exact hs

theorem queueInv_addToQueue (s : PlayerState) (t : Track)
    (hs : QueueInv s) (h : s.queue = [] → s.currentIndex = some 0) :
    QueueInv (addToQueue t s) := by
  intro _
  show cursorOK _
  unfold cursorOK
  by_cases hq : s.queue = []
  · have hc := h hq
    simp [addToQueue, hc]
  · have hcok := hs hq
    unfold cursorOK at hcok
    rcases hcur : s.currentIndex with _ | c
    · rw [hcur] at hcok
      exact hcok.elim
    · rw [hcur] at hcok
      simp only [addToQueue, hcur, List.length_append, List.length_cons,
        List.length_nil]
      push_cast
      omega

theorem queueInv_previousTrack (s : PlayerState) (hs : QueueInv s) :
    QueueInv (previousTrack s) := by
  by_cases hq : s.queue = []
  · have hz : s.queue.length = 0 := by rw [hq]; rfl
    have heq : previousTrack s = s := by simp [previousTrack, hz]
    rw [heq]
    exact hs
  · have hlen : 0 < s.queue.length := List.length_pos.mpr hq
    have hne : ¬ s.queue.length = 0 := by omega
    have hcok := hs hq
    rcases hcur : s.currentIndex with _ | c
    · unfold cursorOK at hcok
      rw [hcur] at hcok
      exact hcok.elim
    · unfold cursorOK at hcok
      rw [hcur] at hcok
      by_cases hcond : s.repeatMode = RepeatMode.all ∧ c = 0
      · intro _
        show cursorOK _
        unfold cursorOK previousTrack
        simp [hne, hcur, hcond]
        omega
      · by_cases hpos : 0 < c
        · intro _
          show cursorOK _
          unfold cursorOK previousTrack
          simp [hne, hcur, hcond, hpos]
          omega
        · have heq : previousTrack s = s := by
            unfold previousTrack
            simp [hne, hcur, hcond, hpos]
          rw [heq]
          exact hs

theorem queueInv_nextTrack (s : PlayerState) (pos : Nat) (hs : QueueInv s)
    (h : s.shuffle = true →
      s.queue = [] ∨ (2 ≤ s.queue.length ∧ pos + 1 < s.queue.length)) :
    QueueInv (nextTrack pos s) := by
  by_cases hq : s.queue = []
  · have hz : s.queue.length = 0 := by rw [hq]; rfl
    have heq : nextTrack pos s = s := by simp [nextTrack, hz]
    rw [heq]
    exact hs
  · have hlen : 0 < s.queue.length := List.length_pos.mpr hq
    have hne : ¬ s.queue.length = 0 := by omega
    have hcok := hs hq
    rcases hcur : s.currentIndex with _ | c
    · unfold cursorOK at hcok
      rw [hcur] at hcok
      exact hcok.elim
    · unfold cursorOK at hcok
      rw [hcur] at hcok
      by_cases hsh : s.shuffle = true
      · rcases h hsh with h | ⟨_, hpos⟩
        · exact absurd h hq
        · obtain ⟨j, hjlt, _, hqueue, hci, _⟩ :=
            nextTrack_shuffle_spec s pos c hsh hcur hcok.1 hcok.2 hpos
          intro _
          show cursorOK _
          unfold cursorOK
          rw [hci, hqueue]
          constructor
          · exact Int.ofNat_nonneg j
          · exact_mod_cast hjlt
      · rcases hrm : s.repeatMode with _ | _ | _
        · by_cases hlt : c < (s.queue.length : Int) - 1
          · intro _
            show cursorOK _
            unfold cursorOK nextTrack
            simp [hne, hsh, hrm, hcur, hlt]
            omega
          · have heq : nextTrack pos s = s := by
              unfold nextTrack
              simp [hne, hsh, hrm, hcur, hlt]
            rw [heq]
            exact hs
        · intro _
          show cursorOK _
          unfold cursorOK nextTrack
          simp [hne, hsh, hrm, hcur]
          omega
        · by_cases hlast : c = (s.queue.length : Int) - 1
          · intro _
            show cursorOK _
            unfold cursorOK nextTrack
            simp [hne, hsh, hrm, hcur, hlast]
            omega
          · by_cases hlt : c < (s.queue.length : Int) - 1
            · intro _
              show cursorOK _
              unfold cursorOK nextTrack
              simp [hne, hsh, hrm, hcur, hlast, hlt]
              omega
            · have heq : nextTrack pos s = s := by
                unfold nextTrack
                simp [hne, hsh, hrm, hcur, hlast, hlt]
              rw [heq]
              exact hs

theorem queueInv_removeFromQueue (s : PlayerState) (i : Int)
    (hs : QueueInv s) (h0 : 0 ≤ i) : QueueInv (removeFromQueue i s) := by
  by_cases hq : s.queue = []
  · have hjs : jsFilterIdx s.queue i = [] := by rw [hq]; rfl
    have hres : (removeFromQueue i s).queue = [] := by
      unfold removeFromQueue
      rcases s.currentIndex with _ | c
      · simp [hjs]
      · simp only [hjs]
        split_ifs <;> simp
    intro hne
    exact absurd hres hne
  · have hlen : 0 < s.queue.length := List.length_pos.mpr hq
    rcases hcur : s.currentIndex with _ | c
    · have hcok := hs hq
      unfold cursorOK at hcok
      rw [hcur] at hcok
      exact hcok.elim
    · have hcok := hs hq
      unfold cursorOK at hcok
      rw [hcur] at hcok
      obtain ⟨hc0, hclen⟩ := hcok
      by_cases hlt : i < c
      · have hflen := jsFilterIdx_length_in s.queue i h0 (by omega)
        intro _
        show cursorOK _
        unfold cursorOK removeFromQueue
        simp [hcur, hlt, hflen]
        omega
      · by_cases hieq : i = c
        · subst hieq
          have hnlt : ¬ i < i := by omega
          have hflen := jsFilterIdx_length_in s.queue i h0 hclen
          by_cases hz : (jsFilterIdx s.queue i).length = 0
          · have hres : (removeFromQueue i s).queue = [] := by
              unfold removeFromQueue
              simp [hcur, hnlt, hz]
            intro hne
            exact absurd hres hne
          · by_cases hge : ((jsFilterIdx s.queue i).length : Int) ≤ i
            · intro _
              show cursorOK _
              unfold cursorOK removeFromQueue
              simp [hcur, hnlt, hz, hge]
              omega
            · intro _
              show cursorOK _
              unfold cursorOK removeFromQueue
              simp [hcur, hnlt, hz, hge]
              omega
        · have hnlt : ¬ i < c := hlt
          by_cases hinr : i < (s.queue.length : Int)
          · have hflen := jsFilterIdx_length_in s.queue i h0 hinr
            intro _
            show cursorOK _
            unfold cursorOK removeFromQueue
            simp [hcur, hnlt, hieq, hflen]
            omega
          · have hjs : jsFilterIdx s.queue i = s.queue :=
              jsFilterIdx_out s.queue i (Or.inr (by omega))
            intro _
            show cursorOK _
            unfold cursorOK removeFromQueue
            simp [hcur, hnlt, hieq, hjs]
            omega

/-- C1 amended: starting from a state satisfying the bound, every queue
operation preserves it, except that `setQueue`/`setCurrentTrack` need the
supplied index to be in range of the (new, resp. existing) queue unless that
queue is empty, shuffle-mode `nextTrack` needs at least 2 tracks (and a
draw within the candidate list, as every real draw is), `addToQueue` from an
empty queue needs the cursor to be 0, and `removeFromQueue` needs a
non-negative index. -/
theorem c1_invariant_amended (s : PlayerState) (hs : QueueInv s) :
    (∀ (tracks : List Track) (i : Int),
      ((0 ≤ i ∧ i < (tracks.length : Int)) ∨ tracks = []) →
      QueueInv (setQueue tracks i s)) ∧
    (∀ (t : Track) (p : Option Nat) (i : Int),
      ((0 ≤ i ∧ i < (s.queue.length : Int)) ∨ s.queue = []) →
      QueueInv (setCurrentTrack t p i s)) ∧
    (∀ pos : Nat,
      (s.shuffle = true →
        s.queue = [] ∨ (2 ≤ s.queue.length ∧ pos + 1 < s.queue.length)) →
      QueueInv (nextTrack pos s)) ∧
    QueueInv (previousTrack s) ∧
    (∀ i : Int, QueueInv (seekToTrack i s)) ∧
    (∀ t : Track, (s.queue = [] → s.currentIndex = some 0) →
      QueueInv (addToQueue t s)) ∧
    (∀ i : Int, 0 ≤ i → QueueInv (removeFromQueue i s)) ∧
    QueueInv (clearQueue s) ∧
    QueueInv (reset s) :=
  ⟨fun tracks i h => queueInv_setQueue s tracks i h,
   fun t p i h => queueInv_setCurrentTrack s t p i h,
   fun pos h => queueInv_nextTrack s pos hs h,
   queueInv_previousTrack s hs,
   fun i => queueInv_seekToTrack s i hs,
   fun t h => queueInv_addToQueue s t hs h,
   fun i h0 => queueInv_removeFromQueue s i hs h0,
   fun hne => absurd rfl hne,
   fun hne => absurd rfl hne⟩

/-- Witness for the amended C1 at the concrete state `s5` (queue `[A, B]`,
cursor 1), which satisfies the bound. -/
theorem c1_witness :
    QueueInv (setQueue [trackA] 0 s5) ∧ QueueInv (nextTrack 0 s5) ∧
    QueueInv (previousTrack s5) ∧ QueueInv (seekToTrack 1 s5) ∧
    QueueInv (addToQueue trackC s5) ∧ QueueInv (removeFromQueue 0 s5) ∧
    QueueInv (clearQueue s5) ∧ QueueInv (reset s5) :=
  ⟨(c1_invariant_amended s5 (by decide)).1 [trackA] 0 (Or.inl (by decide)),
   (c1_invariant_amended s5 (by decide)).2.2.1 0 (by decide),
   (c1_invariant_amended s5 (by decide)).2.2.2.1,
   (c1_invariant_amended s5 (by decide)).2.2.2.2.1 1,
   (c1_invariant_amended s5 (by decide)).2.2.2.2.2.1 trackC (by decide),
   (c1_invariant_amended s5 (by decide)).2.2.2.2.2.2.1 0 (by decide),
   (c1_invariant_amended s5 (by decide)).2.2.2.2.2.2.2.1,
   (c1_invariant_amended s5 (by decide)).2.2.2.2.2.2.2.2⟩
